import Mathlib

/-!
Verification of `bittensor/utils/dispatcher.py` (class `Dispatcher`).

Shallow embedding of the sparse mixture-of-experts dispatcher.  Tensors are
modelled as lists of flat rows of exact rationals together with a trailing
shape and a floating dtype tag; float rounding is not modelled (no claim
refers to rounded values).  Fallible torch operations return
`Except String Tensor`.  `torch.sort` along dim 0 is modelled as a stable
sort (ties broken by position), the behaviour the algorithm relies on.
-/

namespace DispatcherPy

/-- A gate matrix: `B` rows of `E` rational entries, row-major. -/
abbrev GateMatrix : Type := List (List ℚ)

/-- Entry `gates[b, e]`, reading 0 outside bounds. -/
def entry (g : GateMatrix) (b e : Nat) : ℚ := (g.getD b []).getD e 0

/-- Number of experts `E = gates.shape[1]`: the length of the first row. -/
def nCols (g : GateMatrix) : Nat := (g.headD []).length

/-- The matrix is rectangular: every row has length `nCols g`. -/
def Rect (g : GateMatrix) : Prop := ∀ row ∈ g, row.length = nCols g

instance (g : GateMatrix) : Decidable (Rect g) := List.decidableBAll _ g

/-- Column indices of the nonzero entries of one row, ascending: the
contribution of one row to `torch.nonzero`. -/
def nzRow (row : List ℚ) : List Nat :=
  (List.range row.length).filter (fun e => row.getD e 0 ≠ 0)

/-- Model of `torch.nonzero(gates)`: the `(row, col)` index pairs of the
nonzero entries, in row-major order. -/
def torchNonzero (g : GateMatrix) : List (Nat × Nat) :=
  (List.range g.length).flatMap (fun b => (nzRow (g.getD b [])).map (fun e => (b, e)))

/-- Batch (first) column of `torch.nonzero(gates)`. -/
def col0 (g : GateMatrix) : List Nat := (torchNonzero g).map Prod.fst

/-- Expert (second) column of `torch.nonzero(gates)`. -/
def col1 (g : GateMatrix) : List Nat := (torchNonzero g).map Prod.snd

/-- Comparator for the stable argsort of a column `ks`: position `i` comes
before `j` when `(ks[i], i) ≤ (ks[j], j)` lexicographically. -/
def argsortLe (ks : List Nat) (i j : Nat) : Prop :=
  ks.getD i 0 < ks.getD j 0 ∨ (ks.getD i 0 = ks.getD j 0 ∧ i ≤ j)

instance (ks : List Nat) : DecidableRel (argsortLe ks) :=
  fun _ _ => inferInstanceAs (Decidable (_ ∨ _))

instance (ks : List Nat) : IsTotal Nat (argsortLe ks) :=
  ⟨by intro a b; unfold argsortLe; omega⟩

instance (ks : List Nat) : IsTrans Nat (argsortLe ks) :=
  ⟨by intro a b c; unfold argsortLe; omega⟩

/-- The `indices` half of `torch.sort(dim=0)` on one column (modelled stable,
via insertion sort on positions compared by `(key, position)`). -/
def argsort (ks : List Nat) : List Nat :=
  (List.range ks.length).insertionSort (argsortLe ks)

/-- The `values` half of `torch.sort(dim=0)` on one column: the column
gathered at the argsort indices. -/
def sortVals (ks : List Nat) : List Nat := (argsort ks).map (fun i => ks.getD i 0)

/-- Model of `sorted_experts, index_sorted_experts = torch.nonzero(gates).sort(0)`
followed by `batch_index = sorted_experts[index_sorted_experts[:, 1], 0]`:
the sorted batch column gathered at the argsort of the expert column. -/
def batch_index (g : GateMatrix) : List Nat :=
  (argsort (col1 g)).map (fun i => (sortVals (col0 g)).getD i 0)

/-- Model of `_, expert_index = sorted_experts.split(1, dim=1)`: the sorted expert
column (as used by `torch.gather` in `combine`). -/
def expert_index (g : GateMatrix) : List Nat := sortVals (col1 g)

/-- Rows routed to expert `e` (`gates[b, e] != 0`), in ascending row order. -/
def assignedRows (g : GateMatrix) (e : Nat) : List Nat :=
  (List.range g.length).filter (fun b => entry g b e ≠ 0)

/-- Model of `part_sizes = list((gates != 0.0).sum(0).cpu().numpy())`: for each expert
column, the number of rows with a nonzero gate. -/
def part_sizes (g : GateMatrix) : List Nat :=
  (List.range (nCols g)).map (fun e => (assignedRows g e).length)

/-- Model of `gates_exp = gates[batch_index.flatten()]` followed by
`nonzero_gates = torch.gather(gates_exp, 1, expert_index)`: the gate value at
`(batch_index[k], expert_index[k])` for each `k`. -/
def nonzero_gates (g : GateMatrix) : List ℚ :=
  List.zipWith (fun b e => entry g b e) (batch_index g) (expert_index g)

/-- Floating dtypes occurring in the dispatcher. -/
inductive DType where
  | float16
  | float32
  | float64
deriving DecidableEq, Repr

/-- Promotion rank of a dtype. -/
def DType.rank : DType → Nat
  | .float16 => 0
  | .float32 => 1
  | .float64 => 2

/-- Binary dtype promotion: the wider of the two dtypes. -/
def DType.promote (a b : DType) : DType := if a.rank ≤ b.rank then b else a

/-- A floating tensor of shape `rows.length :: rshape`: `rows` holds the
slices along dim 0, each flattened to a list of `rshape.prod` rationals. -/
structure Tensor where
  rshape : List Nat
  dtype : DType
  rows : List (List ℚ)
deriving DecidableEq

instance : Inhabited Tensor := ⟨⟨[], .float32, []⟩⟩

instance {ε α : Type} [DecidableEq ε] [DecidableEq α] : DecidableEq (Except ε α)
  | .error e, .error f =>
      if h : e = f then isTrue (by rw [h]) else isFalse (by simp [h])
  | .error _, .ok _ => isFalse (by simp)
  | .ok _, .error _ => isFalse (by simp)
  | .ok a, .ok b =>
      if h : a = b then isTrue (by rw [h]) else isFalse (by simp [h])

/-- Shape `t.shape` as a list of dimensions. -/
def Tensor.shape (t : Tensor) : List Nat := t.rows.length :: t.rshape

/-- Size `t.size(1)`: first trailing dimension (0 for a 1-D tensor). -/
def Tensor.size1 (t : Tensor) : Nat := t.rshape.headD 0

/-- Model of `torch.cat(ts, 0)`: concatenate along dim 0; all trailing shapes must
agree; the result dtype is the promotion of all input dtypes. -/
def torchCat (ts : List Tensor) : Except String Tensor :=
  match ts with
  | [] => .error "cat: expected a non-empty list of tensors"
  | t :: rest =>
      if rest.all (fun s => s.rshape = t.rshape) then
        .ok ⟨t.rshape, rest.foldl (fun d s => d.promote s.dtype) t.dtype,
             ((t :: rest).map Tensor.rows).flatten⟩
      else .error "cat: trailing shape mismatch"

/-- Model of `torch.flatten(t, start_dim=1)`: collapse all trailing dims into one;
errors on a 1-D tensor (`start_dim` out of range). -/
def flatten1 (t : Tensor) : Except String Tensor :=
  if t.rshape = [] then .error "flatten: dimension out of range"
  else .ok ⟨[t.rshape.prod], t.dtype, t.rows⟩

/-- Model of `flat_stitched.mul(nonzero_gates)` where `nonzero_gates` has shape
`(M, 1)`: row-wise scaling with dim-0 broadcasting.  Gate values carry
torch's default dtype `float32`, so the result dtype is the promotion of
`t.dtype` with `float32`. -/
def mulGatesCol (t : Tensor) (gs : List ℚ) : Except String Tensor :=
  let d := t.dtype.promote .float32
  if t.rows.length = gs.length then
    .ok ⟨t.rshape, d, List.zipWith (fun r q => r.map (fun v => v * q)) t.rows gs⟩
  else if gs.length = 1 then
    .ok ⟨t.rshape, d, t.rows.map (fun r => r.map (fun v => v * gs.headD 0))⟩
  else if t.rows.length = 1 then
    .ok ⟨t.rshape, d, gs.map (fun q => (t.rows.headD []).map (fun v => v * q))⟩
  else .error "mul: size mismatch at dim 0"

/-- Model of `torch.zeros(b, d)`: all-zero `(b, d)` tensor of default dtype `float32`. -/
def torchZeros (b d : Nat) : Tensor :=
  ⟨[d], .float32, List.replicate b (List.replicate d 0)⟩

/-- Model of `.float()`: cast to `float32` (values kept exact; see module comment). -/
def Tensor.toFloat32 (t : Tensor) : Tensor := ⟨t.rshape, .float32, t.rows⟩

/-- Add the row `r` elementwise into position `i` of `rows`. -/
def addRow (rows : List (List ℚ)) (i : Nat) (r : List ℚ) : List (List ℚ) :=
  rows.set i (List.zipWith (· + ·) (rows.getD i []) r)

/-- Model of `self.index_add(0, idx, src)`: scatter-add each row of `src` into `self`
at the corresponding index; errors on length, shape, dtype or bound
mismatches, as torch does. -/
def index_add (self : Tensor) (idx : List Nat) (src : Tensor) : Except String Tensor :=
  if idx.length = src.rows.length ∧ src.rshape = self.rshape ∧ src.dtype = self.dtype
      ∧ idx.all (fun i => i < self.rows.length) then
    .ok ⟨self.rshape, self.dtype,
         (List.zipWith Prod.mk idx src.rows).foldl (fun acc p => addRow acc p.1 p.2) self.rows⟩
  else .error "index_add: invalid arguments"

/-- Structural worker for `chunksOf`: `fuel` bounds the number of chunks and
starts at the list length, which suffices whenever `k ≥ 1`. -/
def chunksOfAux {α : Type} (k : Nat) : Nat → List α → List (List α)
  | _, [] => []
  | 0, _ :: _ => []
  | fuel + 1, v :: vs => (v :: vs).take k :: chunksOfAux k fuel ((v :: vs).drop k)

/-- Split a list into consecutive chunks of `k` elements (helper for
`view` and for `batch_index.view(-1, B)`). -/
def chunksOf {α : Type} (k : Nat) (l : List α) : List (List α) :=
  if k = 0 then [] else chunksOfAux k l.length l

/-- Model of `t.view(shape)` for an explicit target shape: requires the element count
to match, then regroups the flat data into rows of the new trailing size. -/
def torchView (t : Tensor) (shape : List Nat) : Except String Tensor :=
  match shape with
  | [] => .error "view: empty shape"
  | n :: rest =>
      if t.rows.length * t.rshape.prod = n * rest.prod then
        .ok ⟨rest, t.dtype, chunksOf rest.prod t.rows.flatten⟩
      else .error "view: shape mismatch"

/-- Model of `torch.split(l, sizes, dim=0)`: consecutive chunks of the given sizes. -/
def splitSizes {α : Type} (l : List α) : List Nat → List (List α)
  | [] => []
  | s :: rest => l.take s :: splitSizes (l.drop s) rest

/-- Numeric-tensor branch of `Dispatcher.dispatch`:
`x_expanded = x[batch_index]` then
`results = torch.split(x_expanded, part_sizes, dim=0)`.
Gathering is modelled totally with `getD` (every entry of `batch_index` is a
row index of `gates`, hence in bounds whenever `x` has `gates.size(0)` rows). -/
def dispatch_tensor (x : Tensor) (g : GateMatrix) : List Tensor :=
  let expanded := (batch_index g).map (fun b => x.rows.getD b [])
  (splitSizes expanded (part_sizes g)).map (fun rs => ⟨x.rshape, x.dtype, rs⟩)

/-- List branch of `Dispatcher.dispatch` (`isinstance(x, list)`):
`batch_index = batch_index.view(-1, gates.shape[0])`, then for each row of
that reshaped index tensor, gather `x[idx]` into one result list. -/
def dispatch_list {α : Type} [Inhabited α] (x : List α) (g : GateMatrix) :
    Except String (List (List α)) :=
  let bi := batch_index g
  if g.length ≠ 0 ∧ bi.length % g.length = 0 then
    .ok ((chunksOf g.length bi).map (fun row => row.map (fun idx => x.getD idx default)))
  else .error "view: cannot infer dimension"

/-- Model of `Dispatcher.combine(expert_out, gates, multiply_by_gates)`:
concatenate and flatten the expert outputs; if weighting, re-derive
`batch_index` / `nonzero_gates` from `gates` and scale each stacked row;
scatter-add the rows into a `float32` zero buffer of `gates.size(0)` rows via
`index_add`; finally `combined.view(expert_out[0].shape)`.
When `multiply_by_gates` is `False` the source never assigns the local
`batch_index`, so the `index_add` line raises `UnboundLocalError`. -/
def combine (expert_out : List Tensor) (g : GateMatrix) (multiply_by_gates : Bool) :
    Except String Tensor :=
  match torchCat expert_out with
  | .error e => .error e
  | .ok stitched =>
      match flatten1 stitched with
      | .error e => .error e
      | .ok flat0 =>
          if multiply_by_gates then
            match mulGatesCol flat0 (nonzero_gates g) with
            | .error e => .error e
            | .ok flat =>
                match index_add (torchZeros g.length flat.size1) (batch_index g)
                    flat.toFloat32 with
                | .error e => .error e
                | .ok combined => torchView combined (expert_out.headD default).shape
          else .error "UnboundLocalError: local variable referenced before assignment"

/-- The nonzero `(row, expert)` pairs sorted by `(expert, row)`: the order in
which `dispatch` and `combine` enumerate assignments (proof-side
characterization of the argsort pipeline). -/
def byExpert (g : GateMatrix) : List (Nat × Nat) :=
  (List.range (nCols g)).flatMap (fun e => (assignedRows g e).map (fun b => (b, e)))

/-- The nonzero pairs gathered at the argsort of the expert column. -/
def sortedNz (g : GateMatrix) : List (Nat × Nat) :=
  (argsort (col1 g)).map (fun i => (torchNonzero g).getD i (0, 0))

/-- Strict row-major (batch, expert) lexicographic order on index pairs. -/
def ltBE (p q : Nat × Nat) : Prop := p.1 < q.1 ∨ (p.1 = q.1 ∧ p.2 < q.2)

/-- Reflexive (expert, batch) lexicographic order on index pairs. -/
def leEB (p q : Nat × Nat) : Prop := p.2 < q.2 ∨ (p.2 = q.2 ∧ p.1 ≤ q.1)

/-- Strict (expert, batch) lexicographic order on index pairs. -/
def ltEB (p q : Nat × Nat) : Prop := p.2 < q.2 ∨ (p.2 = q.2 ∧ p.1 < q.1)

instance : IsAntisymm (Nat × Nat) leEB :=
  ⟨by
    intro p q hpq hqp
    rcases p with ⟨a, b⟩
    rcases q with ⟨c, d⟩
    simp only [leEB] at hpq hqp
    have : a = c ∧ b = d := by omega
    simp [this.1, this.2]⟩

/-! ## Characterization of the index pipeline

The composed torch idiom
`sorted_experts, idx = nonzero(gates).sort(0); batch_index = sorted_experts[idx[:, 1], 0]`
is shown to enumerate the nonzero `(row, expert)` pairs in `(expert, row)`
lexicographic order and project out the row. -/

theorem argsort_perm (ks : List Nat) : List.Perm (argsort ks) (List.range ks.length) :=
  List.perm_insertionSort _ _

theorem mem_argsort_lt {ks : List Nat} {i : Nat} (h : i ∈ argsort ks) : i < ks.length := by
  have := (argsort_perm ks).mem_iff.mp h
  simpa [List.mem_range] using this

theorem argsort_pairwise (ks : List Nat) :
    (argsort ks).Pairwise (fun i j => argsortLe ks i j) :=
  List.sorted_insertionSort (argsortLe ks) _

/-- Gathering a list at the full ascending index range recovers the list. -/
theorem map_getD_range {α : Type} (l : List α) (d : α) :
    (List.range l.length).map (fun i => l.getD i d) = l := by
  apply List.ext_getElem
  · simp
  · intro i h1 h2
    simp [List.getD_eq_getElem l d h2, List.getElem?_eq_getElem h2]

theorem argsort_of_sorted {ks : List Nat} (h : ks.Pairwise (· ≤ ·)) :
    argsort ks = List.range ks.length := by
  apply List.Sorted.insertionSort_eq
  rw [List.Sorted, List.pairwise_iff_getElem]
  intro i j hi hj hij
  simp only [List.length_range] at hi hj
  simp only [List.getElem_range, argsortLe]
  have hkey : ks.getD i 0 ≤ ks.getD j 0 := by
    rw [List.getD_eq_getElem _ _ hi, List.getD_eq_getElem _ _ hj]
    exact (List.pairwise_iff_getElem.mp h) i j hi hj hij
  omega

theorem sortVals_of_sorted {ks : List Nat} (h : ks.Pairwise (· ≤ ·)) : sortVals ks = ks := by
  rw [sortVals, argsort_of_sorted h, map_getD_range]

theorem nzRow_pairwise (row : List ℚ) : (nzRow row).Pairwise (· < ·) :=
  (List.pairwise_lt_range row.length).filter _

theorem mem_nzRow {row : List ℚ} {e : Nat} :
    e ∈ nzRow row ↔ e < row.length ∧ row.getD e 0 ≠ 0 := by
  simp [nzRow, List.mem_filter]

theorem torchNonzero_pairwise (g : GateMatrix) : (torchNonzero g).Pairwise ltBE := by
  unfold torchNonzero
  rw [List.pairwise_flatMap]
  refine ⟨?_, ?_⟩
  · intro b _
    rw [List.pairwise_map]
    exact (nzRow_pairwise _).imp (fun h => Or.inr ⟨rfl, h⟩)
  · refine (List.pairwise_lt_range g.length).imp_of_mem ?_
    intro b1 b2 _ _ hlt x hx y hy
    rcases List.mem_map.mp hx with ⟨e1, _, rfl⟩
    rcases List.mem_map.mp hy with ⟨e2, _, rfl⟩
    exact Or.inl hlt

theorem mem_torchNonzero {g : GateMatrix} {p : Nat × Nat} :
    p ∈ torchNonzero g ↔
      p.1 < g.length ∧ p.2 < (g.getD p.1 []).length ∧ entry g p.1 p.2 ≠ 0 := by
  rcases p with ⟨b, e⟩
  simp only [torchNonzero, List.mem_flatMap, List.mem_map, List.mem_range]
  constructor
  · rintro ⟨b', hb', e', he', heq⟩
    cases heq
    rcases mem_nzRow.mp he' with ⟨h1, h2⟩
    exact ⟨hb', h1, h2⟩
  · rintro ⟨hb, h1, h2⟩
    exact ⟨b, hb, e, mem_nzRow.mpr ⟨h1, h2⟩, rfl⟩

theorem col0_pairwise (g : GateMatrix) : (col0 g).Pairwise (· ≤ ·) := by
  rw [col0, List.pairwise_map]
  exact (torchNonzero_pairwise g).imp (fun h => by rcases h with h | ⟨h, _⟩ <;> omega)

theorem col1_length (g : GateMatrix) : (col1 g).length = (torchNonzero g).length := by
  simp [col1]

theorem sortedNz_perm (g : GateMatrix) :
    List.Perm (sortedNz g) (torchNonzero g) := by
  have h1 : List.Perm (argsort (col1 g)) (List.range (torchNonzero g).length) := by
    rw [← col1_length]
    exact argsort_perm (col1 g)
  have h2 := h1.map (fun i => (torchNonzero g).getD i (0, 0))
  rwa [map_getD_range] at h2

theorem batch_index_eq_map_fst (g : GateMatrix) :
    batch_index g = (sortedNz g).map Prod.fst := by
  rw [batch_index, sortedNz, List.map_map, sortVals_of_sorted (col0_pairwise g)]
  apply List.map_congr_left
  intro i hi
  have hlt : i < (torchNonzero g).length := by
    rw [← col1_length]
    exact mem_argsort_lt hi
  simp only [Function.comp_apply, col0]
  rw [List.getD_eq_getElem _ _ (by simpa using hlt), List.getD_eq_getElem _ _ hlt]
  simp

theorem expert_index_eq_map_snd (g : GateMatrix) :
    expert_index g = (sortedNz g).map Prod.snd := by
  rw [expert_index, sortVals, sortedNz, List.map_map]
  apply List.map_congr_left
  intro i hi
  have hlt : i < (torchNonzero g).length := by
    rw [← col1_length]
    exact mem_argsort_lt hi
  simp only [Function.comp_apply, col1]
  rw [List.getD_eq_getElem _ _ (by simpa using hlt), List.getD_eq_getElem _ _ hlt]
  simp

theorem sortedNz_pairwise (g : GateMatrix) : (sortedNz g).Pairwise leEB := by
  rw [sortedNz, List.pairwise_map]
  refine (argsort_pairwise (col1 g)).imp_of_mem ?_
  intro i j hi hj hle
  have hi' : i < (torchNonzero g).length := by rw [← col1_length]; exact mem_argsort_lt hi
  have hj' : j < (torchNonzero g).length := by rw [← col1_length]; exact mem_argsort_lt hj
  have hci : (col1 g).getD i 0 = ((torchNonzero g).getD i (0, 0)).2 := by
    simp only [col1]
    rw [List.getD_eq_getElem _ _ (by simpa using hi'), List.getD_eq_getElem _ _ hi']
    simp
  have hcj : (col1 g).getD j 0 = ((torchNonzero g).getD j (0, 0)).2 := by
    simp only [col1]
    rw [List.getD_eq_getElem _ _ (by simpa using hj'), List.getD_eq_getElem _ _ hj']
    simp
  simp only [argsortLe, hci, hcj] at hle
  rcases hle with h | ⟨heq, hij⟩
  · exact Or.inl h
  · refine Or.inr ⟨heq, ?_⟩
    rcases Nat.lt_or_ge i j with hlt | hge
    · have hbe := (List.pairwise_iff_getElem.mp (torchNonzero_pairwise g)) i j hi' hj' hlt
      rw [List.getD_eq_getElem _ _ hi', List.getD_eq_getElem _ _ hj']
      rcases hbe with h | ⟨h, _⟩ <;> omega
    · have hij' : i = j := by omega
      subst hij'
      exact Nat.le_refl _

theorem assignedRows_pairwise (g : GateMatrix) (e : Nat) :
    (assignedRows g e).Pairwise (· < ·) :=
  (List.pairwise_lt_range g.length).filter _

theorem mem_assignedRows {g : GateMatrix} {e b : Nat} :
    b ∈ assignedRows g e ↔ b < g.length ∧ entry g b e ≠ 0 := by
  simp [assignedRows, List.mem_filter]

theorem byExpert_pairwise (g : GateMatrix) : (byExpert g).Pairwise ltEB := by
  unfold byExpert
  rw [List.pairwise_flatMap]
  refine ⟨?_, ?_⟩
  · intro e _
    rw [List.pairwise_map]
    exact (assignedRows_pairwise g e).imp (fun h => Or.inr ⟨rfl, h⟩)
  · refine (List.pairwise_lt_range (nCols g)).imp_of_mem ?_
    intro e1 e2 _ _ hlt x hx y hy
    rcases List.mem_map.mp hx with ⟨b1, _, rfl⟩
    rcases List.mem_map.mp hy with ⟨b2, _, rfl⟩
    exact Or.inl hlt

theorem mem_byExpert {g : GateMatrix} {p : Nat × Nat} :
    p ∈ byExpert g ↔ p.2 < nCols g ∧ p.1 < g.length ∧ entry g p.1 p.2 ≠ 0 := by
  rcases p with ⟨b, e⟩
  simp only [byExpert, List.mem_flatMap, List.mem_map, List.mem_range]
  constructor
  · rintro ⟨e', he', b', hb', heq⟩
    cases heq
    rcases mem_assignedRows.mp hb' with ⟨h1, h2⟩
    exact ⟨he', h1, h2⟩
  · rintro ⟨he, h1, h2⟩
    exact ⟨e, he, b, mem_assignedRows.mpr ⟨h1, h2⟩, rfl⟩

theorem torchNonzero_nodup (g : GateMatrix) : (torchNonzero g).Nodup :=
  (torchNonzero_pairwise g).imp
    (fun {p q} h heq => by rw [heq] at h; rcases h with h | ⟨_, h⟩ <;> omega)

theorem byExpert_nodup (g : GateMatrix) : (byExpert g).Nodup :=
  (byExpert_pairwise g).imp
    (fun {p q} h heq => by rw [heq] at h; rcases h with h | ⟨_, h⟩ <;> omega)

theorem byExpert_perm (g : GateMatrix) (hr : Rect g) :
    List.Perm (byExpert g) (torchNonzero g) := by
  rw [List.perm_ext_iff_of_nodup (byExpert_nodup g) (torchNonzero_nodup g)]
  rintro ⟨b, e⟩
  rw [mem_byExpert, mem_torchNonzero]
  have hrow : ∀ hb : b < g.length, (g.getD b []).length = nCols g := by
    intro hb
    apply hr
    rw [List.getD_eq_getElem _ _ hb]
    exact List.getElem_mem _
  constructor
  · rintro ⟨he, hb, hne⟩
    refine ⟨hb, ?_, hne⟩
    rw [hrow hb]
    exact he
  · rintro ⟨hb, he, hne⟩
    refine ⟨?_, hb, hne⟩
    rw [← hrow hb]
    exact he

theorem sortedNz_eq_byExpert (g : GateMatrix) (hr : Rect g) :
    sortedNz g = byExpert g :=
  List.eq_of_perm_of_sorted ((sortedNz_perm g).trans (byExpert_perm g hr).symm)
    (sortedNz_pairwise g)
    ((byExpert_pairwise g).imp
      (fun {p q} h => by rcases h with h | ⟨h1, h2⟩ <;> [exact Or.inl h; exact Or.inr ⟨h1, by omega⟩]))

/-- The derived `batch_index` lists, expert block by expert block in expert
order, the rows assigned to each expert in ascending row order. -/
theorem batch_index_eq (g : GateMatrix) (hr : Rect g) :
    batch_index g = (List.range (nCols g)).flatMap (fun e => assignedRows g e) := by
  rw [batch_index_eq_map_fst, sortedNz_eq_byExpert g hr, byExpert, List.map_flatMap]
  simp [List.map_map, Function.comp_def]

/-! ## Dispatch characterization -/

theorem batch_index_length (g : GateMatrix) :
    (batch_index g).length = (torchNonzero g).length := by
  simp [batch_index, argsort, col1]

theorem splitSizes_flatten {α : Type} (ls : List (List α)) :
    splitSizes ls.flatten (ls.map List.length) = ls := by
  induction ls with
  | nil => rfl
  | cons hd tl ih =>
      simp only [List.flatten_cons, List.map_cons, splitSizes]
      rw [List.take_left, List.drop_left, ih]

/-- The tensor branch of `dispatch` produces, for each expert in order, the
sub-batch of `x`-rows assigned to that expert in ascending row order. -/
theorem dispatch_tensor_eq (x : Tensor) (g : GateMatrix) (hr : Rect g) :
    dispatch_tensor x g = (List.range (nCols g)).map
      (fun e => ⟨x.rshape, x.dtype, (assignedRows g e).map (fun b => x.rows.getD b [])⟩) := by
  have hexp : (batch_index g).map (fun b => x.rows.getD b [])
      = ((List.range (nCols g)).map
          (fun e => (assignedRows g e).map (fun b => x.rows.getD b []))).flatten := by
    rw [batch_index_eq g hr, List.map_flatMap, List.flatMap_def]
  have hps : part_sizes g
      = ((List.range (nCols g)).map
          (fun e => (assignedRows g e).map (fun b => x.rows.getD b []))).map List.length := by
    simp [part_sizes, List.map_map, Function.comp_def]
  simp only [dispatch_tensor]
  rw [hexp, hps, splitSizes_flatten]
  simp [List.map_map, Function.comp_def]

theorem dispatch_tensor_getD (x : Tensor) (g : GateMatrix) (e : Nat)
    (hr : Rect g) (he : e < nCols g) :
    ((dispatch_tensor x g).getD e default).rows
      = (assignedRows g e).map (fun b => x.rows.getD b []) := by
  rw [dispatch_tensor_eq x g hr]
  rw [List.getD_eq_getElem _ _ (by simpa using he)]
  simp

theorem part_sizes_sum_eq (g : GateMatrix) (hr : Rect g) :
    (part_sizes g).sum = (torchNonzero g).length := by
  have h := congrArg List.length (batch_index_eq g hr)
  rw [batch_index_length, List.length_flatMap] at h
  simpa [part_sizes, Function.comp_def] using h.symm

theorem mem_batch_index {g : GateMatrix} {b : Nat} (hr : Rect g) (h : b ∈ batch_index g) :
    b < g.length := by
  rw [batch_index_eq g hr] at h
  rcases List.mem_flatMap.mp h with ⟨e, _, hb⟩
  exact (mem_assignedRows.mp hb).1

theorem lt_of_entry_ne_zero {g : GateMatrix} {b e : Nat} (h : entry g b e ≠ 0) :
    b < g.length := by
  by_contra hb
  apply h
  have hg : g.getD b [] = [] := List.getD_eq_default g [] (Nat.le_of_not_lt hb)
  rw [entry, hg]
  rfl

theorem count_assignedRows (g : GateMatrix) (e b : Nat) :
    (assignedRows g e).count b = if entry g b e ≠ 0 then 1 else 0 := by
  by_cases h : entry g b e ≠ 0
  · rw [if_pos h]
    exact List.count_eq_one_of_mem ((List.nodup_range _).filter _)
      (mem_assignedRows.mpr ⟨lt_of_entry_ne_zero h, h⟩)
  · rw [if_neg h, List.count_eq_zero]
    intro hmem
    exact h (mem_assignedRows.mp hmem).2

theorem sum_map_ite (l : List Nat) (p : Nat → Prop) [DecidablePred p] :
    (l.map (fun e => if p e then 1 else 0)).sum = (l.filter (fun e => p e)).length := by
  induction l with
  | nil => rfl
  | cons hd tl ih => by_cases h : p hd <;> simp [List.filter_cons, h, ih, Nat.add_comm]

theorem count_batch_index (g : GateMatrix) (hr : Rect g) (b : Nat) :
    (batch_index g).count b
      = ((List.range (nCols g)).filter (fun e => entry g b e ≠ 0)).length := by
  rw [batch_index_eq g hr, List.count_flatMap]
  have h : ((List.range (nCols g)).map (List.count b ∘ fun e => assignedRows g e))
      = (List.range (nCols g)).map (fun e => if entry g b e ≠ 0 then 1 else 0) :=
    List.map_congr_left (fun e _ => count_assignedRows g e b)
  rw [h, sum_map_ite]

/-! ## Combine: dtype bookkeeping -/

theorem index_add_dtype {self src : Tensor} {idx : List Nat} {u : Tensor}
    (h : index_add self idx src = .ok u) : u.dtype = self.dtype := by
  unfold index_add at h
  split at h
  · rw [Except.ok.injEq] at h
    rw [← h]
  · cases h

theorem torchView_dtype {t u : Tensor} {shape : List Nat} (h : torchView t shape = .ok u) :
    u.dtype = t.dtype := by
  unfold torchView at h
  split at h
  · cases h
  · split at h
    · rw [Except.ok.injEq] at h
      rw [← h]
    · cases h

/-! ## Claim theorems -/

/-- Claim C5 (order preservation per expert): for every rectangular gate matrix,
every input tensor and every expert `e`, the rows of expert `e`'s sub-batch
returned by `dispatch` are exactly the rows of `x` whose gate entry for `e` is
nonzero, in ascending order of their original row indices. -/
theorem claim_C5_order_preservation (g : GateMatrix) (x : Tensor) (e : Nat)
    (hr : Rect g) (he : e < nCols g) :
    ((dispatch_tensor x g).getD e default).rows
      = ((List.range g.length).filter (fun b => entry g b e ≠ 0)).map
          (fun b => x.rows.getD b []) :=
  dispatch_tensor_getD x g e hr he

/-- Witness for C5: gates `[[1,0],[0,1],[1,1]]`, `x = [[10],[20],[30]]`,
expert `e = 1` (its sub-batch is `[[20],[30]]`, rows 1 and 2 in order). -/
theorem claim_C5_witness :
    Rect [[(1 : ℚ), 0], [0, 1], [1, 1]]
    ∧ 1 < nCols [[(1 : ℚ), 0], [0, 1], [1, 1]]
    ∧ ((dispatch_tensor ⟨[1], .float32, [[10], [20], [30]]⟩
          [[(1 : ℚ), 0], [0, 1], [1, 1]]).getD 1 default).rows
        = ((List.range ([[(1 : ℚ), 0], [0, 1], [1, 1]] : GateMatrix).length).filter
            (fun b => entry [[(1 : ℚ), 0], [0, 1], [1, 1]] b 1 ≠ 0)).map
            (fun b => ([[10], [20], [30]] : List (List ℚ)).getD b []) :=
  ⟨by decide, by decide,
    claim_C5_order_preservation [[(1 : ℚ), 0], [0, 1], [1, 1]]
      ⟨[1], .float32, [[10], [20], [30]]⟩ 1 (by decide) (by decide)⟩

/-- Claim C7 (partition property): the per-expert sub-batch sizes `part_sizes`
sum to the total number of nonzero entries of `gates`, and sub-batch `e` of
the numeric-tensor branch has exactly `part_sizes[e]` rows. -/
theorem claim_C7_partition (g : GateMatrix) (x : Tensor) (e : Nat)
    (hr : Rect g) (he : e < nCols g) :
    (part_sizes g).sum = (torchNonzero g).length
    ∧ ((dispatch_tensor x g).getD e default).rows.length = (part_sizes g).getD e 0 := by
  refine ⟨part_sizes_sum_eq g hr, ?_⟩
  rw [dispatch_tensor_getD x g e hr he, List.length_map]
  rw [part_sizes, List.getD_eq_getElem _ _ (by simpa using he)]
  simp

/-- Witness for C7 at gates `[[1,0],[0,1],[1,1]]`, expert `e = 0`. -/
theorem claim_C7_witness :
    Rect [[(1 : ℚ), 0], [0, 1], [1, 1]]
    ∧ 0 < nCols [[(1 : ℚ), 0], [0, 1], [1, 1]]
    ∧ ((part_sizes [[(1 : ℚ), 0], [0, 1], [1, 1]]).sum
        = (torchNonzero [[(1 : ℚ), 0], [0, 1], [1, 1]]).length
      ∧ ((dispatch_tensor ⟨[1], .float32, [[10], [20], [30]]⟩
            [[(1 : ℚ), 0], [0, 1], [1, 1]]).getD 0 default).rows.length
          = (part_sizes [[(1 : ℚ), 0], [0, 1], [1, 1]]).getD 0 0) :=
  ⟨by decide, by decide,
    claim_C7_partition [[(1 : ℚ), 0], [0, 1], [1, 1]]
      ⟨[1], .float32, [[10], [20], [30]]⟩ 0 (by decide) (by decide)⟩

/-- Claim C10 (dispatch invariants): in the numeric-tensor branch the
concatenation of the returned sub-batches equals `x` gathered at the derived
`batch_index` sequence (so every returned row is an exact copy of a row of
`x` whenever `x` has `gates.size(0)` rows), and each original row `b` appears
across all sub-batches with multiplicity equal to the number of nonzero gate
entries in row `b`.  The embedding is purely functional, so `x` and `gates`
are never modified by construction. -/
theorem claim_C10_copies (g : GateMatrix) (x : Tensor) (b : Nat) (hr : Rect g)
    (hx : x.rows.length = g.length) :
    ((dispatch_tensor x g).map Tensor.rows).flatten
        = (batch_index g).map (fun i => x.rows.getD i [])
    ∧ (batch_index g).all (fun i => i < x.rows.length)
    ∧ (batch_index g).count b
        = ((List.range (nCols g)).filter (fun e => entry g b e ≠ 0)).length := by
  refine ⟨?_, ?_, count_batch_index g hr b⟩
  · rw [dispatch_tensor_eq x g hr, List.map_map, batch_index_eq g hr,
      List.map_flatMap, List.flatMap_def]
    simp [Function.comp_def]
  · rw [List.all_eq_true]
    intro i hi
    simpa [hx] using mem_batch_index hr hi

/-- Witness for C10 at gates `[[1,0],[0,1],[1,1]]`, `x = [[10],[20],[30]]`,
row `b = 2` (assigned to both experts, so it appears twice). -/
theorem claim_C10_witness :
    Rect [[(1 : ℚ), 0], [0, 1], [1, 1]]
    ∧ (⟨[1], .float32, [[10], [20], [30]]⟩ : Tensor).rows.length
        = ([[(1 : ℚ), 0], [0, 1], [1, 1]] : GateMatrix).length
    ∧ (((dispatch_tensor ⟨[1], .float32, [[10], [20], [30]]⟩
            [[(1 : ℚ), 0], [0, 1], [1, 1]]).map Tensor.rows).flatten
          = (batch_index [[(1 : ℚ), 0], [0, 1], [1, 1]]).map
              (fun i => ([[10], [20], [30]] : List (List ℚ)).getD i [])
      ∧ (batch_index [[(1 : ℚ), 0], [0, 1], [1, 1]]).all
          (fun i => i < ([[(10 : ℚ)], [20], [30]] : List (List ℚ)).length)
      ∧ (batch_index [[(1 : ℚ), 0], [0, 1], [1, 1]]).count 2
          = ((List.range (nCols [[(1 : ℚ), 0], [0, 1], [1, 1]])).filter
              (fun e => entry [[(1 : ℚ), 0], [0, 1], [1, 1]] 2 e ≠ 0)).length) :=
  ⟨by decide, by decide,
    claim_C10_copies [[(1 : ℚ), 0], [0, 1], [1, 1]]
      ⟨[1], .float32, [[10], [20], [30]]⟩ 2 (by decide) (by decide)⟩

/-- Claim C9 (result dtype): whenever `combine` returns a tensor, that tensor
has dtype `float32`, regardless of the expert output dtypes: the stacked rows
are cast with `.float()` before `index_add` into a `float32` zero buffer. -/
theorem claim_C9_float32 (expert_out : List Tensor) (g : GateMatrix)
    (mbg : Bool) (t : Tensor) (h : combine expert_out g mbg = .ok t) :
    t.dtype = .float32 := by
  rw [combine] at h
  split at h
  · cases h
  · split at h
    · cases h
    · split at h
      · split at h
        · cases h
        · split at h
          · cases h
          · rename_i combined ha
            rw [torchView_dtype h, index_add_dtype ha]
            rfl
      · cases h

/-- Witness for C9: a `float64` expert output still combines to `float32`. -/
theorem claim_C9_witness :
    combine [⟨[1], .float64, [[3]]⟩] [[(1 : ℚ)]] true = .ok ⟨[1], .float32, [[0 + 3 * 1]]⟩
    ∧ (Tensor.mk [1] .float32 [[0 + 3 * 1]]).dtype = .float32 :=
  ⟨rfl,
    claim_C9_float32 [⟨[1], .float64, [[3]]⟩] [[(1 : ℚ)]] true
      ⟨[1], .float32, [[0 + 3 * 1]]⟩ rfl⟩

/-- Claim C1 (code bug): with the one-hot, weight-1 gate matrix `[[1,0],[0,1]]`
and identity experts, `combine(dispatch(x, gates), gates)` does not reproduce
`x`: the final `combined.view(expert_out[0].shape)` fails, because the
combined buffer has `B = 2` rows but expert 0's output has only one row.  The
first conjunct records that every gate row has exactly one nonzero entry,
equal to 1, as the claim requires. -/
theorem claim_C1_roundtrip_fails :
    ([[(1 : ℚ), 0], [0, 1]].all (fun row => decide (row.filter (fun q => q ≠ 0) = [1])))
    ∧ combine (dispatch_tensor ⟨[1], .float32, [[5], [7]]⟩ [[(1 : ℚ), 0], [0, 1]])
        [[(1 : ℚ), 0], [0, 1]] true = .error "view: shape mismatch" :=
  ⟨by decide, rfl⟩

/-- Claim C2 (code bug): calling `combine` with `multiply_by_gates=False` does
not return the unweighted sum: the source only assigns the local variable
`batch_index` inside the `if multiply_by_gates:` block, so the later
`index_add` line raises `UnboundLocalError` on every such call. -/
theorem claim_C2_flag_false_raises :
    combine [⟨[1], .float32, [[2]]⟩] [[(1 : ℚ)]] false
      = .error "UnboundLocalError: local variable referenced before assignment" := rfl

/-- Claim C3 (code bug): the tensor returned by `combine` does not always have
leading dimension `B`: the final reshape targets `expert_out[0].shape`, so
with gates `[[1,0],[0,1],[1,0]]` (`part_sizes = [2,1]`, `B = 3`) and
well-shaped expert outputs of 2 and 1 rows, `combine` raises a shape error
instead of returning a 3-row tensor. -/
theorem claim_C3_shape_fails :
    part_sizes [[(1 : ℚ), 0], [0, 1], [1, 0]] = [2, 1]
    ∧ combine [⟨[1], .float32, [[1], [3]]⟩, ⟨[1], .float32, [[2]]⟩]
        [[(1 : ℚ), 0], [0, 1], [1, 0]] true = .error "view: shape mismatch" :=
  ⟨by decide, rfl⟩

/-- Claim C4 (code bug): in the scenario `B=4`, `E=2`,
`gates = [[1,0],[0,1],[1,1],[0,0]]`, `dispatch` does yield expert-0 batch
`[r0, r2]` and expert-1 batch `[r1, r2]` as claimed (first conjunct), but
`combine` of the expert outputs `o0 = [A, C]`, `o1 = [B, D]` raises a shape
error at `combined.view(expert_out[0].shape)` (4 combined rows vs 2 rows of
`o0`) instead of returning `[A, B, C + D, 0]`. -/
theorem claim_C4_scenario :
    dispatch_tensor ⟨[1], .float32, [[10], [20], [30], [40]]⟩
        [[(1 : ℚ), 0], [0, 1], [1, 1], [0, 0]]
      = [⟨[1], .float32, [[10], [30]]⟩, ⟨[1], .float32, [[20], [30]]⟩]
    ∧ combine [⟨[1], .float32, [[1], [3]]⟩, ⟨[1], .float32, [[2], [4]]⟩]
        [[(1 : ℚ), 0], [0, 1], [1, 1], [0, 0]] true = .error "view: shape mismatch" :=
  ⟨by decide, rfl⟩

/-- Claim C6 (code bug): a batch row with all-zero gate entries is indeed
dropped by the tensor branch of `dispatch` without error (first conjunct),
but `combine` never returns the claimed all-zero output row: an all-zero
row forces `part_sizes[0] < B`, so the final
`combined.view(expert_out[0].shape)` raises a shape error. -/
theorem claim_C6_zero_row :
    dispatch_tensor ⟨[1], .float32, [[5], [7]]⟩ [[(1 : ℚ)], [0]]
      = [⟨[1], .float32, [[5]]⟩]
    ∧ combine [⟨[1], .float32, [[5]]⟩] [[(1 : ℚ)], [0]] true
      = .error "view: shape mismatch" :=
  ⟨by decide, rfl⟩

/-- Claim C8 (code bug): on the list branch, `dispatch` does not return one
list per expert: `batch_index.view(-1, gates.shape[0])` groups the sorted
batch indices into chunks of `B` rows.  With gates `[[1,0],[0,1]]`
(`part_sizes = [1,1]`) and `x = [r0, r1]`, it returns the single list
`[[r0, r1]]` instead of the claimed `[[r0], [r1]]`. -/
theorem claim_C8_list_branch :
    dispatch_list [(10 : ℚ), 20] [[(1 : ℚ), 0], [0, 1]] = .ok [[10, 20]] := by decide

end DispatcherPy
